import Mathlib

/-
Verification of the background-color estimation core of the WCAG contrast
checker (src/wcag_contrast_checker.py and src/background_verification.py).

Modelling conventions:
- An RGB color is a triple of naturals (each channel in [0,255] at call
  sites; none of the verified properties needs the upper bound).
- A raster image is modelled as the list of its pixels wherever only the
  pixel multiset matters (masking, clustering, confidence); the sampling
  pass of method4_multi_sampling, which is about coordinates, is modelled
  by its coordinate lists over an h by w grid.
- The sources compare Euclidean distances against integer thresholds
  (np.linalg.norm(p - q) <= t, < 30, and so on).  Squared distances are
  integers, the thresholds are integers, and sqrt is strictly monotone, so
  dist <= t iff sqDist <= t^2 and dist < t iff sqDist < t^2 hold exactly;
  the embedding therefore works with squared integer distances.  The lemma
  sqrt_lt_30_iff below records the equivalence against Real.sqrt.
- sklearn KMeans is an external clustering oracle; it is threaded through
  as a parameter (kmeans : Nat -> List RGB -> RGB) mapping the number of
  clusters and the pixel list to the centroid of the largest cluster.  The
  verified statements are exactly those independent of the oracle, except
  that the number of clusters the code requests is observable through it.
- Python floats for luminance and contrast are modelled as real numbers;
  font-size arithmetic is modelled over the rationals.
-/

namespace WCAG

/-- RGB color triple, channels as naturals. -/
abbrev RGB : Type := Nat × Nat × Nat

/-- Squared Euclidean distance between two RGB colors, as an integer.
Embeds np.linalg.norm(p - q) composed with squaring. -/
def sqDist (p q : RGB) : ℤ :=
  ((p.1 : ℤ) - q.1) ^ 2 + ((p.2.1 : ℤ) - q.2.1) ^ 2 + ((p.2.2 : ℤ) - q.2.2) ^ 2

/-- Embeds create_enhanced_text_mask / is_background_pixel negated:
a pixel is classified as text iff its distance to the text color is at most
the threshold, i.e. iff its squared distance is at most threshold squared. -/
def isTextPixel (threshold : Nat) (p fg : RGB) : Bool :=
  decide (sqDist p fg ≤ (threshold : ℤ) ^ 2)

/-- Background pixels of an image: pixels not masked as text.
Embeds image_array[~text_mask] flattened to a pixel list. -/
def backgroundPixels (threshold : Nat) (img : List RGB) (fg : RGB) : List RGB :=
  img.filter (fun p => ! isTextPixel threshold p fg)

/-- Embeds method1_dominant_clustering (background_verification.py):
mask with threshold 50, fail with no estimate when fewer than 10
background pixels remain, otherwise run KMeans with
n_clusters = min(4, len(background_pixels)) and return the centroid of the
largest cluster (the kmeans oracle). -/
def method1_dominant_clustering (kmeans : Nat → List RGB → RGB)
    (img : List RGB) (fg : RGB) : Option RGB :=
  let bg := backgroundPixels 50 img fg
  if bg.length < 10 then none
  else some (kmeans (min 4 bg.length) bg)

/-- Embeds the RGB result of calculate_true_background_luminance
(wcag_contrast_checker.py): mask with threshold 50; if fewer than 10
background pixels remain, fall back to all pixels of the image; count the
distinct colors (np.unique); with at most one distinct color return it
directly, otherwise run KMeans with
n_clusters = min(4, n_unique, len(background_pixels)).
The zero-distinct-colors case (empty image) makes the Python code take
int(nan) inside the except handler and return None. -/
def calculate_true_background_rgb (kmeans : Nat → List RGB → RGB)
    (img : List RGB) (fg : RGB) : Option RGB :=
  let bg0 := backgroundPixels 50 img fg
  let bg := if bg0.length < 10 then img else bg0
  let nUnique := bg.dedup.length
  if nUnique = 0 then none
  else if nUnique ≤ 1 then some (bg.dedup.headD (0, 0, 0))
  else some (kmeans (min 4 (min nUnique bg.length)) bg)

/-- Fraction of image pixels whose Euclidean distance to the candidate
color is strictly below 30.  Embeds the division
np.sum(distances < 30) / len(pixels) of calculate_confidence for a
nonempty pixel list. -/
def confFrac (c : RGB) (pixels : List RGB) : ℚ :=
  ((pixels.countP (fun p => decide (sqDist p c < 900))) : ℚ) / (pixels.length : ℚ)

/-- Embeds calculate_confidence (background_verification.py).  A missing
candidate scores 0.0 before any pixel is touched.  With a present
candidate and zero pixels the Python division 0 / 0 produces NaN (a
RuntimeWarning, not an exception); that undefined outcome is modelled as
none.  Otherwise the score is the fraction of pixels near the candidate. -/
def calculate_confidence (bg : Option RGB) (pixels : List RGB) : Option ℚ :=
  match bg with
  | none => some 0
  | some c => if pixels.length = 0 then none else some (confFrac c pixels)

/-- Embeds the arbitration tail of method5_hierarchical: score the clean,
medium and coarse candidates with calculate_confidence against the full
image and return the candidate at np.argmax of [clean, medium, coarse],
which is the first index attaining the maximum. -/
def method5_select (clean medium coarse : RGB) (img : List RGB) : RGB :=
  let s0 := confFrac clean img
  let s1 := confFrac medium img
  let s2 := confFrac coarse img
  if s1 ≤ s0 ∧ s2 ≤ s0 then clean
  else if s2 ≤ s1 then medium
  else coarse

/-! Sampling geometry of method4_multi_sampling. -/

/-- Embeds the Python expression range(start, stop, step) for a positive
step: the arithmetic progression start, start + step, ... strictly below
stop. -/
def pyRange (start stop step : Nat) : List Nat :=
  (List.range ((stop - start + step - 1) / step)).map (fun k => start + k * step)

/-- Coordinates visited by the grid pass of method4_multi_sampling:
the product of range(h/4, 3h/4, max 1 (h/8)) and
range(w/4, 3w/4, max 1 (w/8)), kept only inside the image bounds (the
in-code 0 <= y < h and 0 <= x < w check). -/
def gridCoords (h w : Nat) : List (Nat × Nat) :=
  ((pyRange (h / 4) (3 * h / 4) (max 1 (h / 8))).flatMap
    (fun y => (pyRange (w / 4) (3 * w / 4) (max 1 (w / 8))).map (fun x => (y, x)))).filter
    (fun p => decide (p.1 < h) && decide (p.2 < w))

/-- Coordinates visited by the random pass: 100 consecutive draws from the
pseudo-random stream.  The stream itself (np.random with seed 42) is kept
abstract; validDraws below records the contract of
np.random.randint(0, h) and np.random.randint(0, w). -/
def randomPassCoords (draws : Nat → Nat × Nat) : List (Nat × Nat) :=
  (List.range 100).map draws

/-- Contract of the two randint calls of the random pass: each drawn row
is in [0, h) and each drawn column is in [0, w) -- the full image, with no
restriction to the central half. -/
def validDraws (h w : Nat) (draws : Nat → Nat × Nat) : Prop :=
  ∀ i, (draws i).1 < h ∧ (draws i).2 < w

/-- The 16 angles np.linspace(0, 2*pi, 16): k * (2*pi / 15) for k in
[0, 15]. -/
noncomputable def circleAngles : List ℝ :=
  (List.range 16).map (fun k : Nat => 2 * Real.pi * (k : ℝ) / 15)

/-- One point of the circular pass:
(int(h/2 + r*sin theta), int(w/2 + r*cos theta)) with r = min(h,w)/4.
Both float values are at least h/2 - r >= 0 and w/2 - r >= 0, so the
Python int() truncation coincides with the floor. -/
noncomputable def circlePoint (h w : Nat) (θ : ℝ) : ℤ × ℤ :=
  (⌊((h / 2 : Nat) : ℝ) + ((min h w / 4 : Nat) : ℝ) * Real.sin θ⌋,
   ⌊((w / 2 : Nat) : ℝ) + ((min h w / 4 : Nat) : ℝ) * Real.cos θ⌋)

/-- Coordinates visited by the circular pass of method4_multi_sampling,
guarded by the radius > 0 check of the source. -/
noncomputable def circleCoords (h w : Nat) : List (ℤ × ℤ) :=
  if min h w / 4 = 0 then [] else circleAngles.map (circlePoint h w)

/-! Luminance, contrast ratio and WCAG compliance. -/

/-- Embeds gamma_correct / srgb_to_linear (wcag_contrast_checker.py):
normalize the channel to [0,1] and linearize with the sRGB curve. -/
noncomputable def gamma_correct (c : Nat) : ℝ :=
  let x : ℝ := (c : ℝ) / 255
  if x ≤ 0.03928 then x / 12.92 else ((x + 0.055) / 1.055) ^ (2.4 : ℝ)

/-- Relative luminance of an RGB triple; embeds the tail of
rgb_to_luminance and linear_rgb_to_luminance. -/
noncomputable def rgb_lum (c : RGB) : ℝ :=
  0.2126 * gamma_correct c.1 + 0.7152 * gamma_correct c.2.1 + 0.0722 * gamma_correct c.2.2

/-- WCAG ratio of two luminances; embeds the shared tail of
calculate_contrast_ratio and calculate_improved_contrast_ratio. -/
noncomputable def contrastOfLum (l1 l2 : ℝ) : ℝ :=
  (max l1 l2 + 0.05) / (min l1 l2 + 0.05)

/-- Embeds calculate_contrast_ratio on the already-parsed foreground and
background colors (rgb_to_luminance resolves each color string to an RGB
triple upstream, defaulting to black on parse failure). -/
noncomputable def calculate_contrast_ratio (fg bg : RGB) : ℝ :=
  contrastOfLum (rgb_lum fg) (rgb_lum bg)

/-- Embeds calculate_improved_contrast_ratio: None when the true
background luminance is missing, the WCAG ratio against the parsed
foreground color otherwise. -/
noncomputable def calculate_improved_contrast_ratio (fg : RGB) (trueBgLum : Option ℝ) :
    Option ℝ :=
  match trueBgLum with
  | none => none
  | some l => some (contrastOfLum (rgb_lum fg) l)

/-- Result record of determine_wcag_compliance. -/
structure ComplianceResult where
  is_compliant : Prop
  required_ratio : ℝ
  actual_ratio : ℝ
  situation : String
  is_large_text : Bool
  font_size_pt : ℚ

/-- Embeds determine_wcag_compliance, branch for branch: the pt size is
px * 0.75; the Japanese branch and the default branch carry textually
identical (redundant) disjunctions; large text lowers the required ratio
to 3.0 (situation B), otherwise 4.5 (situation A); compliance is
actual >= required. -/
noncomputable def determine_wcag_compliance (fontSizePx : ℚ) (isBold : Bool)
    (language : String) (contrastRatio : ℝ) : ComplianceResult :=
  let font_size_pt : ℚ := fontSizePx * 0.75
  let is_japanese : Bool := language == "ja"
  let is_large_text : Bool :=
    if is_japanese then
      if isBold then decide (18 ≤ font_size_pt) || decide (22 ≤ font_size_pt)
      else decide (14 ≤ font_size_pt) || decide (18 ≤ font_size_pt)
    else
      if isBold then decide (18 ≤ font_size_pt) || decide (22 ≤ font_size_pt)
      else decide (14 ≤ font_size_pt) || decide (18 ≤ font_size_pt)
  let required_ratio : ℝ := if is_large_text then 3.0 else 4.5
  { is_compliant := required_ratio ≤ contrastRatio
    required_ratio := required_ratio
    actual_ratio := contrastRatio
    situation := if is_large_text then "B" else "A"
    is_large_text := is_large_text
    font_size_pt := font_size_pt }

/-! Distance-based ranking of estimates (verify_background_detection). -/

/-- Embeds calculate_color_distance up to squaring: the distance between
two colors, float(inf) -- modelled as the top element -- when either is
None.  Sorting by the float distance and sorting by the squared integer
distance agree: sqrt is strictly monotone on the integers that arise. -/
def calculate_color_sqdist (c1 c2 : Option RGB) : WithTop ℤ :=
  match c1, c2 with
  | some a, some b => (sqDist a b : WithTop ℤ)
  | _, _ => ⊤

/-- Sort key of one estimate in the ranking: its distance to the
reference (human-judgment) color. -/
def distKey (ref : RGB) (e : Option RGB) : WithTop ℤ :=
  calculate_color_sqdist e (some ref)

/-- Stable insertion into a list sorted by key: the new element goes
before the first element whose key is at least its own.  Elements
processed later by sortByKey come from earlier input positions, so ties
keep the original relative order -- the documented behaviour of
list.sort(key=...) in Python. -/
def insertSorted {α : Type} (key : α → WithTop ℤ) (x : α) : List α → List α
  | [] => [x]
  | y :: l => if key x ≤ key y then x :: y :: l else y :: insertSorted key x l

/-- Stable ascending sort by key; embeds results.sort(key=lambda x:
x[distance]). -/
def sortByKey {α : Type} (key : α → WithTop ℤ) (l : List α) : List α :=
  l.foldr (insertSorted key) []

/-- The ranking operation of verify_background_detection: sort the
estimate list by distance to the reference color. -/
def rank_by_distance (ests : List (Option RGB)) (ref : RGB) : List (Option RGB) :=
  sortByKey (distKey ref) ests

/-- Lowercase hexadecimal digit of a value below 16. -/
def hexDigit (n : Nat) : Char :=
  if n < 10 then Char.ofNat (48 + n) else Char.ofNat (87 + n)

/-- Two lowercase hexadecimal digits of a byte. -/
def hexByte (n : Nat) : String :=
  String.mk [hexDigit (n / 16 % 16), hexDigit (n % 16)]

/-- Embeds rgb_to_hex: None passes through, otherwise the #rrggbb
rendering. -/
def rgb_to_hex (rgb : Option RGB) : Option String :=
  match rgb with
  | none => none
  | some c => some ("#" ++ hexByte c.1 ++ hexByte c.2.1 ++ hexByte c.2.2)

/-! End-to-end per-element flow of check_contrast_ratio. -/

/-- One text element as consumed by the per-element loop of
check_contrast_ratio.  colorResolved and bgResolved are the RGB triples
rgb_to_luminance resolves from the DOM color strings (black on parse
failure); colorRGBA is the result of the stricter rgba()-only regex used
by the screenshot path (none when that regex does not match); screenshot
is the captured element raster (none when locating or capturing the
element failed). -/
structure Element where
  colorResolved : RGB
  bgResolved : RGB
  colorRGBA : Option RGB
  screenshot : Option (List RGB)
  fontSize : ℚ
  isBold : Bool
  language : String

/-- Per-element result record (the fields of the result dict that the
verified claims are about). -/
structure CheckResult where
  contrast_ratio : ℝ
  improved_contrast_ratio : Option ℝ
  final_contrast_ratio : ℝ
  compliance : ComplianceResult

/-- The improved-ratio attempt of the per-element loop: it yields a ratio
exactly when the screenshot exists, the foreground color string matches
the rgba regex, and calculate_true_background_luminance returns an
estimate; any failure on the way leaves it at None (the enclosing
try/except swallows exceptions without aborting the loop). -/
noncomputable def improvedRatioOf (kmeans : Nat → List RGB → RGB) (e : Element) :
    Option ℝ :=
  match e.screenshot with
  | none => none
  | some img =>
    match e.colorRGBA with
    | none => none
    | some fgRgb =>
      match calculate_true_background_rgb kmeans img fgRgb with
      | none => none
      | some bgRgb =>
        calculate_improved_contrast_ratio e.colorResolved (some (rgb_lum bgRgb))

/-- One iteration of the per-element loop: DOM-declared ratio, optional
improved ratio, the final ratio (improved when available), and the
compliance verdict computed from the final ratio. -/
noncomputable def processElement (kmeans : Nat → List RGB → RGB) (e : Element) :
    CheckResult :=
  let cr := calculate_contrast_ratio e.colorResolved e.bgResolved
  let improved := improvedRatioOf kmeans e
  let final := improved.getD cr
  { contrast_ratio := cr
    improved_contrast_ratio := improved
    final_contrast_ratio := final
    compliance := determine_wcag_compliance e.fontSize e.isBold e.language final }

/-- The per-element loop of check_contrast_ratio over the located text
elements: every element yields a result record. -/
noncomputable def check_contrast_ratio (kmeans : Nat → List RGB → RGB)
    (elems : List Element) : List CheckResult :=
  elems.map (processElement kmeans)

/-! Concrete inputs used by witnesses and counterexamples. -/

/-- Clustering oracle that reports the number of clusters it was asked
for, making the n_clusters argument of the KMeans call observable. -/
def probeKmeans : Nat → List RGB → RGB := fun k _ => (k, 0, 0)

/-- Constant clustering oracle. -/
def constKmeans : Nat → List RGB → RGB := fun _ _ => (0, 0, 0)

/-- A single-pixel all-black image. -/
def imgBlack1 : List RGB := [(0, 0, 0)]

/-- Ten pixels of one and the same color. -/
def imgMono10 : List RGB := List.replicate 10 (200, 200, 200)

/-- A two-pixel image with two distinct colors. -/
def imgDuo : List RGB := [(0, 0, 0), (255, 255, 255)]

/-- A concrete element whose screenshot capture failed. -/
def elemNoShot : Element :=
  { colorResolved := (0, 0, 0)
    bgResolved := (255, 255, 255)
    colorRGBA := none
    screenshot := none
    fontSize := 16
    isBold := false
    language := "en" }

/-! Supporting lemmas. -/

/-- A squared distance is never negative. -/
theorem sqDist_nonneg (p q : RGB) : 0 ≤ sqDist p q := by
  unfold sqDist; positivity

/-- The strict 30-pixel similarity test of calculate_confidence compares
a float square root against 30; over the integer squared distances this
is exactly the comparison against 900 used by the embedding. -/
theorem sqrt_lt_30_iff (p c : RGB) :
    Real.sqrt ((sqDist p c : ℤ) : ℝ) < 30 ↔ sqDist p c < 900 := by
  rw [Real.sqrt_lt' (by norm_num : (0 : ℝ) < 30)]
  constructor
  · intro hlt
    have : ((sqDist p c : ℤ) : ℝ) < ((900 : ℤ) : ℝ) := by push_cast; linarith
    exact_mod_cast this
  · intro hlt
    have : ((sqDist p c : ℤ) : ℝ) < ((900 : ℤ) : ℝ) := by exact_mod_cast hlt
    push_cast at this; linarith

/-- The text-mask test of create_enhanced_text_mask compares a float
square root against the integer threshold; over the integer squared
distances this is exactly the comparison the embedding performs. -/
theorem isTextPixel_iff_sqrt (t : Nat) (p fg : RGB) :
    isTextPixel t p fg = true ↔ Real.sqrt ((sqDist p fg : ℤ) : ℝ) ≤ (t : ℝ) := by
  unfold isTextPixel
  rw [decide_eq_true_iff, Real.sqrt_le_left (by positivity)]
  constructor
  · intro hle
    have : ((sqDist p fg : ℤ) : ℝ) ≤ (((t : ℤ) ^ 2 : ℤ) : ℝ) := by exact_mod_cast hle
    push_cast at this ⊢; linarith
  · intro hle
    have : ((sqDist p fg : ℤ) : ℝ) ≤ (((t : ℤ) ^ 2 : ℤ) : ℝ) := by push_cast at hle ⊢; linarith
    exact_mod_cast this

/-- Members of pyRange lie in the half-open interval [start, stop). -/
theorem pyRange_mem_bounds {start stop step y : Nat} (hstep : 0 < step)
    (hy : y ∈ pyRange start stop step) : start ≤ y ∧ y < stop := by
  unfold pyRange at hy
  simp only [List.mem_map, List.mem_range] at hy
  obtain ⟨k, hk, rfl⟩ := hy
  refine ⟨Nat.le_add_right _ _, ?_⟩
  have h1 : k + 1 ≤ (stop - start + step - 1) / step := hk
  have h2 : (k + 1) * step ≤ stop - start + step - 1 :=
    (Nat.le_div_iff_mul_le hstep).mp h1
  have h3 : k * step + step ≤ stop - start + step - 1 := by
    rw [Nat.succ_mul] at h2; exact h2
  omega

/-- Members of the grid pass lie in the central half of the image. -/
theorem gridCoords_mem_central {h w : Nat} {p : Nat × Nat} (hp : p ∈ gridCoords h w) :
    h / 4 ≤ p.1 ∧ p.1 < 3 * h / 4 ∧ w / 4 ≤ p.2 ∧ p.2 < 3 * w / 4 := by
  unfold gridCoords at hp
  rw [List.mem_filter] at hp
  obtain ⟨hmem, _⟩ := hp
  simp only [List.mem_flatMap, List.mem_map] at hmem
  obtain ⟨y, hy, x, hx, rfl⟩ := hmem
  have hy' := pyRange_mem_bounds (lt_of_lt_of_le Nat.zero_lt_one (le_max_left 1 (h / 8))) hy
  have hx' := pyRange_mem_bounds (lt_of_lt_of_le Nat.zero_lt_one (le_max_left 1 (w / 8))) hx
  exact ⟨hy'.1, hy'.2, hx'.1, hx'.2⟩

/-- Stable insertion produces a permutation of the element consed onto
the list. -/
theorem insertSorted_perm {α : Type} (key : α → WithTop ℤ) (x : α) (l : List α) :
    (insertSorted key x l).Perm (x :: l) := by
  induction l with
  | nil => exact List.Perm.refl _
  | cons y ys ih =>
    unfold insertSorted
    by_cases hxy : key x ≤ key y
    · rw [if_pos hxy]
    · rw [if_neg hxy]
      exact (ih.cons y).trans (List.Perm.swap x y ys)

/-- Stable insertion preserves sortedness by key. -/
theorem insertSorted_pairwise {α : Type} (key : α → WithTop ℤ) (x : α) (l : List α)
    (hl : l.Pairwise (fun a b => key a ≤ key b)) :
    (insertSorted key x l).Pairwise (fun a b => key a ≤ key b) := by
  induction l with
  | nil => simp [insertSorted]
  | cons y ys ih =>
    rw [List.pairwise_cons] at hl
    obtain ⟨hy, hys⟩ := hl
    unfold insertSorted
    by_cases hxy : key x ≤ key y
    · rw [if_pos hxy]
      refine List.Pairwise.cons ?_ (List.Pairwise.cons hy hys)
      intro b hb
      rcases List.mem_cons.mp hb with rfl | hb
      · exact hxy
      · exact le_trans hxy (hy b hb)
    · rw [if_neg hxy]
      refine List.Pairwise.cons ?_ (ih hys)
      intro b hb
      have hb' : b ∈ x :: ys := (insertSorted_perm key x ys).mem_iff.mp hb
      rcases List.mem_cons.mp hb' with rfl | hb'
      · exact (lt_of_not_le hxy).le
      · exact hy b hb'

/-- Elements skipped while inserting have strictly smaller keys, so the
subsequence at any fixed key gains the new element at its front exactly
when the new element carries that key. -/
theorem insertSorted_filter {α : Type} (key : α → WithTop ℤ) (x : α) (l : List α)
    (d : WithTop ℤ) :
    (insertSorted key x l).filter (fun a => decide (key a = d))
      = if key x = d then x :: l.filter (fun a => decide (key a = d))
        else l.filter (fun a => decide (key a = d)) := by
  induction l with
  | nil =>
    by_cases hxd : key x = d <;> simp [insertSorted, hxd]
  | cons y ys ih =>
    unfold insertSorted
    by_cases hxy : key x ≤ key y
    · rw [if_pos hxy]
      by_cases hxd : key x = d <;> simp [hxd, List.filter_cons]
    · rw [if_neg hxy]
      have hyx : key y < key x := lt_of_not_le hxy
      by_cases hxd : key x = d
      · have hyd : ¬(key y = d) := by rw [← hxd]; exact ne_of_lt hyx
        simp [List.filter_cons, hyd, ih, hxd]
      · simp [List.filter_cons, ih, hxd]

/-- The stable sort is a permutation of its input. -/
theorem sortByKey_perm {α : Type} (key : α → WithTop ℤ) (l : List α) :
    (sortByKey key l).Perm l := by
  induction l with
  | nil => exact List.Perm.refl _
  | cons x xs ih =>
    exact (insertSorted_perm key x (sortByKey key xs)).trans (ih.cons x)

/-- The stable sort is sorted by key. -/
theorem sortByKey_pairwise {α : Type} (key : α → WithTop ℤ) (l : List α) :
    (sortByKey key l).Pairwise (fun a b => key a ≤ key b) := by
  induction l with
  | nil => simp [sortByKey]
  | cons x xs ih => exact insertSorted_pairwise key x _ ih

/-- Stability: at every key value, the sorted list carries the same
subsequence as the input, in the same order. -/
theorem sortByKey_filter {α : Type} (key : α → WithTop ℤ) (l : List α) (d : WithTop ℤ) :
    (sortByKey key l).filter (fun a => decide (key a = d))
      = l.filter (fun a => decide (key a = d)) := by
  induction l with
  | nil => rfl
  | cons x xs ih =>
    show (insertSorted key x (sortByKey key xs)).filter _ = _
    rw [insertSorted_filter, List.filter_cons]
    by_cases hxd : key x = d <;> simp [hxd, ih]

/-- Both branches of the sRGB linearization are nonnegative. -/
theorem gamma_correct_nonneg (c : Nat) : 0 ≤ gamma_correct c := by
  unfold gamma_correct
  dsimp only
  split
  · positivity
  · positivity

/-- Relative luminance is nonnegative. -/
theorem rgb_lum_nonneg (c : RGB) : 0 ≤ rgb_lum c := by
  unfold rgb_lum
  have h1 := gamma_correct_nonneg c.1
  have h2 := gamma_correct_nonneg c.2.1
  have h3 := gamma_correct_nonneg c.2.2
  linarith

/-- C7: the contrast-ratio function computes
(max(L1,L2)+0.05)/(min(L1,L2)+0.05) from the two luminances, is symmetric
in its two arguments, and its value is always at least 1.0. -/
theorem contrast_ratio_formula_symm_ge_one (c1 c2 : RGB) :
    calculate_contrast_ratio c1 c2
        = (max (rgb_lum c1) (rgb_lum c2) + 0.05) / (min (rgb_lum c1) (rgb_lum c2) + 0.05)
  ∧ calculate_contrast_ratio c1 c2 = calculate_contrast_ratio c2 c1
  ∧ 1 ≤ calculate_contrast_ratio c1 c2 := by
  refine ⟨rfl, ?_, ?_⟩
  · unfold calculate_contrast_ratio contrastOfLum
    rw [max_comm, min_comm]
  · unfold calculate_contrast_ratio contrastOfLum
    have h1 := rgb_lum_nonneg c1
    have h2 := rgb_lum_nonneg c2
    have hmin : (0 : ℝ) < min (rgb_lum c1) (rgb_lum c2) + 0.05 := by
      have := le_min h1 h2
      linarith
    rw [le_div_iff₀ hmin]
    have := min_le_max (a := rgb_lum c1) (b := rgb_lum c2)
    linarith

/-- C5 counterexample: calculate_confidence with a present candidate and
a zero-pixel image performs the division 0 / 0 (NaN with a warning in
numpy), modelled as none: the score is not defined for every image. -/
theorem confidence_empty_image_undefined :
    calculate_confidence (some (0, 0, 0)) ([] : List RGB) = none := rfl

/-- C5 (amended): the confidence score is 0.0 for an absent candidate; for
a present candidate and a nonempty image it is defined and equals the
fraction of pixels at Euclidean distance strictly below 30, a value in
[0, 1]; only the degenerate zero-pixel image with a present candidate
leaves it undefined. -/
theorem confidence_defined_in_range (bg : Option RGB) (pixels : List RGB) :
    (bg = none → calculate_confidence bg pixels = some 0)
  ∧ ∀ c : RGB, bg = some c → pixels ≠ [] →
      calculate_confidence bg pixels = some (confFrac c pixels)
      ∧ 0 ≤ confFrac c pixels ∧ confFrac c pixels ≤ 1
      ∧ confFrac c pixels
          = ((pixels.countP (fun p => decide (sqDist p c < 900))) : ℚ) / (pixels.length : ℚ)
      ∧ ∀ p : RGB, sqDist p c < 900 ↔ Real.sqrt ((sqDist p c : ℤ) : ℝ) < 30 := by
  constructor
  · rintro rfl; rfl
  · rintro c rfl hne
    have hlen : 0 < pixels.length := List.length_pos.mpr hne
    have hlenQ : (0 : ℚ) < (pixels.length : ℚ) := by exact_mod_cast hlen
    refine ⟨by simp [calculate_confidence, Nat.pos_iff_ne_zero.mp hlen], ?_, ?_, rfl, ?_⟩
    · unfold confFrac; positivity
    · unfold confFrac
      rw [div_le_one hlenQ]
      exact_mod_cast List.countP_le_length _
    · intro p
      exact (sqrt_lt_30_iff p c).symm

/-- C5 witness: on a one-pixel image the confidence score of a present
candidate is defined, equal to the near-pixel fraction, and in range. -/
theorem confidence_defined_witness :
    calculate_confidence (some (0, 0, 0)) imgBlack1 = some (confFrac (0, 0, 0) imgBlack1)
  ∧ 0 ≤ confFrac (0, 0, 0) imgBlack1 ∧ confFrac (0, 0, 0) imgBlack1 ≤ 1 := by
  have H := (confidence_defined_in_range (some (0, 0, 0)) imgBlack1).2 (0, 0, 0) rfl
    (by simp [imgBlack1])
  exact ⟨H.1, H.2.1, H.2.2.1⟩

/-- C1 (amended): method1_dominant_clustering signals no estimate
whenever fewer than 10 background pixels remain after masking with
threshold 50; the checker variant calculate_true_background_luminance
instead falls back to all pixels of the image and still produces an
estimate on every nonempty image. -/
theorem dominant_insufficient_no_estimate (kmeans : Nat → List RGB → RGB)
    (img : List RGB) (fg : RGB)
    (h : (backgroundPixels 50 img fg).length < 10) :
    method1_dominant_clustering kmeans img fg = none
  ∧ (img ≠ [] → ∃ c, calculate_true_background_rgb kmeans img fg = some c) := by
  constructor
  · simp only [method1_dominant_clustering]
    rw [if_pos h]
  · intro hne
    simp only [calculate_true_background_rgb]
    rw [if_pos h]
    have hd : img.dedup ≠ [] := by
      simpa [List.dedup_eq_nil] using hne
    have h0 : ¬(img.dedup.length = 0) := by
      simpa [List.length_eq_zero] using hd
    rw [if_neg h0]
    by_cases h1 : img.dedup.length ≤ 1
    · rw [if_pos h1]; exact ⟨_, rfl⟩
    · rw [if_neg h1]; exact ⟨_, rfl⟩

/-- C1 witness: a one-pixel image whose single pixel matches the
foreground color leaves zero background pixels. -/
theorem dominant_insufficient_witness :
    method1_dominant_clustering constKmeans imgBlack1 (0, 0, 0) = none
  ∧ ∃ c, calculate_true_background_rgb constKmeans imgBlack1 (0, 0, 0) = some c :=
  ⟨(dominant_insufficient_no_estimate constKmeans imgBlack1 (0, 0, 0) (by decide)).1,
   (dominant_insufficient_no_estimate constKmeans imgBlack1 (0, 0, 0) (by decide)).2
     (by decide)⟩

/-- C1 counterexample: with fewer than 10 background pixels the checker
variant cited by the claim does produce an RGB value from the remaining
(foreground) pixels instead of signalling no estimate. -/
theorem checker_insufficient_still_estimates :
    (backgroundPixels 50 imgBlack1 (0, 0, 0)).length < 10
  ∧ calculate_true_background_rgb constKmeans imgBlack1 (0, 0, 0) = some (0, 0, 0) := by
  decide

/-- C3 (amended): the checker variant calculate_true_background_luminance
returns the shared color directly (skipping clustering) when all its
background pixels agree, and otherwise requests exactly
min(4, distinctColorCount, pixelCount) clusters from KMeans;
method1_dominant_clustering in background_verification.py instead always
requests min(4, pixelCount) clusters, with no single-color skip. -/
theorem cluster_grouping_spec (kmeans : Nat → List RGB → RGB) (img : List RGB) (fg : RGB)
    (hne : img ≠ []) :
    (∀ c : RGB,
       (∀ p ∈ (if (backgroundPixels 50 img fg).length < 10 then img
               else backgroundPixels 50 img fg), p = c) →
       calculate_true_background_rgb kmeans img fg = some c)
  ∧ (2 ≤ (if (backgroundPixels 50 img fg).length < 10 then img
          else backgroundPixels 50 img fg).toFinset.card →
       calculate_true_background_rgb kmeans img fg
         = some (kmeans
             (min 4 (min ((if (backgroundPixels 50 img fg).length < 10 then img
                           else backgroundPixels 50 img fg).toFinset.card)
                         ((if (backgroundPixels 50 img fg).length < 10 then img
                           else backgroundPixels 50 img fg).length)))
             (if (backgroundPixels 50 img fg).length < 10 then img
              else backgroundPixels 50 img fg)))
  ∧ (10 ≤ (backgroundPixels 50 img fg).length →
       method1_dominant_clustering kmeans img fg
         = some (kmeans (min 4 (backgroundPixels 50 img fg).length)
                        (backgroundPixels 50 img fg))) := by
  set bg := if (backgroundPixels 50 img fg).length < 10 then img
            else backgroundPixels 50 img fg with hbg
  have hbgne : bg ≠ [] := by
    rw [hbg]
    split
    · exact hne
    · rename_i hlen
      intro hnil
      rw [hnil] at hlen
      simp at hlen
  have hcard : bg.toFinset.card = bg.dedup.length := List.card_toFinset bg
  have hdne : bg.dedup ≠ [] := by simpa [List.dedup_eq_nil] using hbgne
  have hd0 : ¬(bg.dedup.length = 0) := by simpa [List.length_eq_zero] using hdne
  refine ⟨?_, ?_, ?_⟩
  · intro c hc
    have hdc : ∀ p ∈ bg.dedup, p = c := fun p hp => hc p (List.mem_dedup.mp hp)
    have hlen1 : bg.dedup.length ≤ 1 := by
      rcases hd : bg.dedup with _ | ⟨a, t⟩
      · simp
      · have hnd : (a :: t).Nodup := hd ▸ List.nodup_dedup bg
        rcases ht : t with _ | ⟨b, t2⟩
        · simp
        · exfalso
          have ha : a = c := hdc a (by rw [hd]; exact List.mem_cons_self a t)
          have hb : b = c := hdc b (by rw [hd, ht]; exact List.mem_cons_of_mem a (List.mem_cons_self b t2))
          rw [ht] at hnd
          rw [List.nodup_cons] at hnd
          exact hnd.1 (by rw [ha, hb]; exact List.mem_cons_self c t2)
    have hhead : bg.dedup.headD (0, 0, 0) = c := by
      rcases hd : bg.dedup with _ | ⟨a, t⟩
      · exact absurd hd hdne
      · simpa using hdc a (by rw [hd]; exact List.mem_cons_self a t)
    simp only [calculate_true_background_rgb, ← hbg]
    rw [if_neg hd0, if_pos hlen1, hhead]
  · intro h2
    rw [hcard] at h2
    have hgt : ¬(bg.dedup.length ≤ 1) := by omega
    simp only [calculate_true_background_rgb, ← hbg]
    rw [if_neg hd0, if_neg hgt, hcard]
  · intro h10
    simp only [method1_dominant_clustering]
    rw [if_neg (by omega : ¬(backgroundPixels 50 img fg).length < 10)]

/-- C3 witness: the checker variant on a uniform image returns the shared
color directly; on a two-color image it requests min(4, 2, 2) = 2
clusters; method1 with ten background pixels requests min(4, 10) = 4. -/
theorem cluster_grouping_witness :
    calculate_true_background_rgb probeKmeans imgBlack1 (200, 200, 200) = some (0, 0, 0)
  ∧ calculate_true_background_rgb probeKmeans imgDuo (100, 100, 100) = some (2, 0, 0)
  ∧ method1_dominant_clustering probeKmeans imgMono10 (0, 0, 0) = some (4, 0, 0) := by
  refine ⟨?_, ?_, ?_⟩
  · exact (cluster_grouping_spec probeKmeans imgBlack1 (200, 200, 200) (by decide)).1
      (0, 0, 0) (by decide)
  · have H := (cluster_grouping_spec probeKmeans imgDuo (100, 100, 100) (by decide)).2.1
      (by decide)
    exact H.trans (by decide)
  · have H := (cluster_grouping_spec probeKmeans imgMono10 (0, 0, 0) (by decide)).2.2
      (by decide)
    exact H.trans (by decide)

/-- C3 counterexample: ten background pixels of one shared color; the
claim demands a single group -- min(4, 1, 10) = 1 -- and a direct return
of that color, but method1_dominant_clustering requests 4 clusters from
KMeans (observable through the probe oracle) and performs no skip. -/
theorem method1_no_single_color_skip :
    (∀ p ∈ backgroundPixels 50 imgMono10 (0, 0, 0), p = ((200, 200, 200) : RGB))
  ∧ min 4 (min ((backgroundPixels 50 imgMono10 (0, 0, 0)).toFinset.card)
              ((backgroundPixels 50 imgMono10 (0, 0, 0)).length)) = 1
  ∧ method1_dominant_clustering probeKmeans imgMono10 (0, 0, 0) = some (4, 0, 0)
  ∧ (4 : Nat) ≠ 1 := by
  decide

/-- C4: the hierarchical arbitration returns the candidate with maximal
confidence against the full image; when several candidates tie at the
maximum, the earlier one in the order fine (clean), medium, coarse wins
(first-max semantics of np.argmax). -/
theorem hierarchical_first_max (clean medium coarse : RGB) (img : List RGB)
    (himg : img ≠ []) :
    (confFrac clean img ≤ confFrac (method5_select clean medium coarse img) img
      ∧ confFrac medium img ≤ confFrac (method5_select clean medium coarse img) img
      ∧ confFrac coarse img ≤ confFrac (method5_select clean medium coarse img) img)
  ∧ (confFrac medium img ≤ confFrac clean img ∧ confFrac coarse img ≤ confFrac clean img
       → method5_select clean medium coarse img = clean)
  ∧ (¬(confFrac medium img ≤ confFrac clean img ∧ confFrac coarse img ≤ confFrac clean img)
       → confFrac coarse img ≤ confFrac medium img
       → method5_select clean medium coarse img = medium)
  ∧ (¬(confFrac medium img ≤ confFrac clean img ∧ confFrac coarse img ≤ confFrac clean img)
       → ¬(confFrac coarse img ≤ confFrac medium img)
       → method5_select clean medium coarse img = coarse) := by
  unfold method5_select
  by_cases h1 : confFrac medium img ≤ confFrac clean img
      ∧ confFrac coarse img ≤ confFrac clean img
  · rw [if_pos h1]
    exact ⟨⟨le_refl _, h1.1, h1.2⟩, fun _ => rfl,
      fun hn _ => absurd h1 hn, fun hn _ => absurd h1 hn⟩
  · rw [if_neg h1]
    by_cases h2 : confFrac coarse img ≤ confFrac medium img
    · rw [if_pos h2]
      have h1' := h1
      push_neg at h1'
      have h0 : confFrac clean img ≤ confFrac medium img := by
        by_cases ha : confFrac medium img ≤ confFrac clean img
        · have := h1' ha; linarith
        · exact (lt_of_not_le ha).le
      exact ⟨⟨h0, le_refl _, h2⟩, fun hc => absurd hc h1,
        fun _ _ => rfl, fun _ hn => absurd h2 hn⟩
    · rw [if_neg h2]
      have h1' := h1
      push_neg at h1'
      have h12 : confFrac medium img < confFrac coarse img := lt_of_not_le h2
      have h0 : confFrac clean img ≤ confFrac coarse img := by
        by_cases ha : confFrac medium img ≤ confFrac clean img
        · have := h1' ha; linarith
        · have := lt_of_not_le ha; linarith
      exact ⟨⟨h0, h12.le, le_refl _⟩, fun hc => absurd hc h1,
        fun _ hc => absurd hc h2, fun _ _ => rfl⟩

/-- C4 witness: on a one-pixel black image, with all three candidates
within distance 30, the tie goes to the first (fine) candidate. -/
theorem hierarchical_first_max_witness :
    confFrac (0, 0, 0) imgBlack1
      ≤ confFrac (method5_select (0, 0, 0) (1, 1, 1) (2, 2, 2) imgBlack1) imgBlack1
  ∧ method5_select (0, 0, 0) (1, 1, 1) (2, 2, 2) imgBlack1 = (0, 0, 0) := by
  have H := hierarchical_first_max (0, 0, 0) (1, 1, 1) (2, 2, 2) imgBlack1
    (by simp [imgBlack1])
  refine ⟨H.1.1, H.2.1 ⟨?_, ?_⟩⟩ <;>
    norm_num [confFrac, imgBlack1, List.countP_cons, List.countP_nil, sqDist]

/-- C8: the ranking operation returns the same estimates (a permutation),
sorted ascending by distance to the reference color, and stably: at every
distance value the subsequence of estimates is exactly the input
subsequence, in the original order. -/
theorem ranking_sorted_stable (ests : List (Option RGB)) (ref : RGB) :
    (rank_by_distance ests ref).Perm ests
  ∧ (rank_by_distance ests ref).Pairwise (fun a b => distKey ref a ≤ distKey ref b)
  ∧ ∀ d : WithTop ℤ,
      (rank_by_distance ests ref).filter (fun e => decide (distKey ref e = d))
        = ests.filter (fun e => decide (distKey ref e = d)) :=
  ⟨sortByKey_perm (distKey ref) ests, sortByKey_pairwise (distKey ref) ests,
   fun d => sortByKey_filter (distKey ref) ests d⟩

/-- C9: a failed estimator (None) is assigned distance infinity (the top
element), after ranking no successful estimate follows a failed one, and
the hex rendering of a failed estimate is None rather than an error. -/
theorem failed_estimates_rank_last (ests : List (Option RGB)) (ref : RGB)
    (i j : Nat) (hij : i < j) (hj : j < (rank_by_distance ests ref).length)
    (hi : (rank_by_distance ests ref).get ⟨i, lt_trans hij hj⟩ = none) :
    (rank_by_distance ests ref).get ⟨j, hj⟩ = none
  ∧ calculate_color_sqdist none (some ref) = ⊤
  ∧ rgb_to_hex none = none := by
  refine ⟨?_, rfl, rfl⟩
  have hp : (rank_by_distance ests ref).Pairwise
      (fun a b => distKey ref a ≤ distKey ref b) :=
    sortByKey_pairwise (distKey ref) ests
  have hrel := List.pairwise_iff_get.mp hp ⟨i, lt_trans hij hj⟩ ⟨j, hj⟩ hij
  rw [hi] at hrel
  have htop : distKey ref ((rank_by_distance ests ref).get ⟨j, hj⟩) = ⊤ :=
    top_le_iff.mp hrel
  cases hc : (rank_by_distance ests ref).get ⟨j, hj⟩ with
  | none => rfl
  | some c =>
    rw [hc] at htop
    exact absurd htop (by simp [distKey, calculate_color_sqdist])

/-- C9 witness: two failed estimates stay failed throughout the ranking. -/
theorem failed_estimates_rank_last_witness :
    (rank_by_distance [none, none] (0, 0, 0)).get ⟨1, by decide⟩ = none
  ∧ calculate_color_sqdist none (some (0, 0, 0)) = ⊤
  ∧ rgb_to_hex none = none :=
  failed_estimates_rank_last [none, none] (0, 0, 0) 0 1 (by decide) (by decide) (by decide)

/-- At angle 0 (the first linspace angle) on an 8 by 8 image, the
circular pass lands on (h/2, w/2 + radius) = (4, 6) exactly: sin 0 = 0
and cos 0 = 1 are exact even in floating point. -/
theorem circlePoint_8_8_angle0 : circlePoint 8 8 0 = (4, 6) := by
  unfold circlePoint
  norm_num [Real.sin_zero, Real.cos_zero]

/-- Angle 0 is among the 16 linspace angles. -/
theorem zero_mem_circleAngles : (0 : ℝ) ∈ circleAngles := by
  have h16 : (0 : Nat) ∈ List.range 16 := List.mem_range.mpr (by norm_num)
  have hz : (2 : ℝ) * Real.pi * ((0 : Nat) : ℝ) / 15 = 0 := by norm_num
  unfold circleAngles
  rw [List.mem_map]
  exact ⟨0, h16, hz⟩

/-- The pixel (4, 6) is visited by the circular pass on an 8 by 8
image. -/
theorem circle_pt_mem_8_8 : ((4 : ℤ), (6 : ℤ)) ∈ circleCoords 8 8 := by
  unfold circleCoords
  rw [if_neg (by norm_num)]
  exact List.mem_map.mpr ⟨0, zero_mem_circleAngles, circlePoint_8_8_angle0⟩

/-- C2 (amended): the grid pass samples only the central half of the
image; the 100 random draws range over the entire image ([0,h) by [0,w),
the contract of randint), not the central region; and every circular-pass
point lies within radius min(h,w)/4 of the integer center (h/2, w/2) -- a
box whose boundary can reach row 3h/4 and column 3w/4, outside the
half-open central region. -/
theorem multi_sampling_pass_regions (h w : Nat) :
    (∀ p ∈ gridCoords h w,
        h / 4 ≤ p.1 ∧ p.1 < 3 * h / 4 ∧ w / 4 ≤ p.2 ∧ p.2 < 3 * w / 4)
  ∧ (∀ draws : Nat → Nat × Nat, validDraws h w draws →
        ∀ p ∈ randomPassCoords draws, p.1 < h ∧ p.2 < w)
  ∧ (∀ p ∈ circleCoords h w,
        ((h / 2 : Nat) : ℤ) - ((min h w / 4 : Nat) : ℤ) ≤ p.1
        ∧ p.1 ≤ ((h / 2 : Nat) : ℤ) + ((min h w / 4 : Nat) : ℤ)
        ∧ ((w / 2 : Nat) : ℤ) - ((min h w / 4 : Nat) : ℤ) ≤ p.2
        ∧ p.2 ≤ ((w / 2 : Nat) : ℤ) + ((min h w / 4 : Nat) : ℤ)) := by
  refine ⟨fun p hp => gridCoords_mem_central hp, ?_, ?_⟩
  · intro draws hv p hp
    unfold randomPassCoords at hp
    simp only [List.mem_map, List.mem_range] at hp
    obtain ⟨i, _, rfl⟩ := hp
    exact hv i
  · intro p hp
    unfold circleCoords at hp
    by_cases hr : min h w / 4 = 0
    · rw [if_pos hr] at hp
      simp at hp
    · rw [if_neg hr] at hp
      rcases List.mem_map.mp hp with ⟨θ, _, rfl⟩
      unfold circlePoint
      have hs1 := Real.neg_one_le_sin θ
      have hs2 := Real.sin_le_one θ
      have hc1 := Real.neg_one_le_cos θ
      have hc2 := Real.cos_le_one θ
      have hr0 : (0 : ℝ) ≤ ((min h w / 4 : Nat) : ℝ) := Nat.cast_nonneg _
      refine ⟨?_, ?_, ?_, ?_⟩
      · rw [Int.le_floor]
        simp only [Int.cast_sub, Int.cast_natCast]
        have := mul_nonneg hr0 (by linarith : (0 : ℝ) ≤ Real.sin θ + 1)
        nlinarith
      · have hub : ((h / 2 : Nat) : ℝ) + ((min h w / 4 : Nat) : ℝ) * Real.sin θ
            ≤ ((h / 2 + min h w / 4 : Nat) : ℝ) := by
          push_cast
          have := mul_nonneg hr0 (by linarith : (0 : ℝ) ≤ 1 - Real.sin θ)
          nlinarith
        have hfl := Int.floor_le_floor hub
        rw [Int.floor_natCast] at hfl
        push_cast at hfl ⊢
        linarith
      · rw [Int.le_floor]
        simp only [Int.cast_sub, Int.cast_natCast]
        have := mul_nonneg hr0 (by linarith : (0 : ℝ) ≤ Real.cos θ + 1)
        nlinarith
      · have hub : ((w / 2 : Nat) : ℝ) + ((min h w / 4 : Nat) : ℝ) * Real.cos θ
            ≤ ((w / 2 + min h w / 4 : Nat) : ℝ) := by
          push_cast
          have := mul_nonneg hr0 (by linarith : (0 : ℝ) ≤ 1 - Real.cos θ)
          nlinarith
        have hfl := Int.floor_le_floor hub
        rw [Int.floor_natCast] at hfl
        push_cast at hfl ⊢
        linarith

/-- C2 witness: on an 8 by 8 image, the grid point (2, 2) is central, a
constant in-range draw stays inside the image, and the circular point
(4, 6) lies in the radius-2 box around the center (4, 4). -/
theorem multi_sampling_pass_regions_witness :
    (8 / 4 ≤ 2 ∧ (2 : Nat) < 3 * 8 / 4 ∧ 8 / 4 ≤ 2 ∧ (2 : Nat) < 3 * 8 / 4)
  ∧ ((0 : Nat) < 8 ∧ (0 : Nat) < 8)
  ∧ (((8 / 2 : Nat) : ℤ) - ((min 8 8 / 4 : Nat) : ℤ) ≤ 4
      ∧ (4 : ℤ) ≤ ((8 / 2 : Nat) : ℤ) + ((min 8 8 / 4 : Nat) : ℤ)
      ∧ ((8 / 2 : Nat) : ℤ) - ((min 8 8 / 4 : Nat) : ℤ) ≤ 6
      ∧ (6 : ℤ) ≤ ((8 / 2 : Nat) : ℤ) + ((min 8 8 / 4 : Nat) : ℤ)) := by
  refine ⟨?_, ?_, ?_⟩
  · exact (multi_sampling_pass_regions 8 8).1 (2, 2) (by decide)
  · exact (multi_sampling_pass_regions 8 8).2.1 (fun _ => (0, 0))
      (fun i => ⟨by norm_num, by norm_num⟩) (0, 0)
      (List.mem_map.mpr ⟨0, List.mem_range.mpr (by norm_num), rfl⟩)
  · exact (multi_sampling_pass_regions 8 8).2.2 (4, 6) circle_pt_mem_8_8

/-- C2 counterexample: on an 8 by 8 image the circular pass samples the
in-bounds pixel at row 4, column 6, and column 6 is outside the central
half [w/4, 3w/4) = [2, 6). -/
theorem circle_sample_outside_central :
    ((4 : ℤ), (6 : ℤ)) ∈ circleCoords 8 8
  ∧ (0 : ℤ) ≤ 4 ∧ (4 : ℤ) < 8 ∧ (0 : ℤ) ≤ 6 ∧ (6 : ℤ) < 8
  ∧ ¬((6 : ℤ) < 3 * 8 / 4) :=
  ⟨circle_pt_mem_8_8, by norm_num, by norm_num, by norm_num, by norm_num, by norm_num⟩

/-- C6: the compliance classifier computes fontSizePt = fontSizePx * 0.75,
classifies large text as (bold and pt >= 18) or (not bold and pt >= 14)
-- the redundant disjuncts pt >= 22 / pt >= 18 of the source collapse --
identically for every language value including ja, requires ratio 3.0
(situation B) for large text and 4.5 (situation A) otherwise, and reports
compliance exactly when actualRatio >= requiredRatio; the two
spec examples follow. -/
theorem wcag_compliance_spec (fontSizePx : ℚ) (isBold : Bool) (language : String)
    (contrastRatio : ℝ) :
    (determine_wcag_compliance fontSizePx isBold language contrastRatio).font_size_pt
        = fontSizePx * 0.75
  ∧ ((determine_wcag_compliance fontSizePx isBold language contrastRatio).is_large_text
        = true
      ↔ ((isBold = true ∧ 18 ≤ fontSizePx * 0.75)
          ∨ (isBold = false ∧ 14 ≤ fontSizePx * 0.75)))
  ∧ determine_wcag_compliance fontSizePx isBold "ja" contrastRatio
        = determine_wcag_compliance fontSizePx isBold language contrastRatio
  ∧ (determine_wcag_compliance fontSizePx isBold language contrastRatio).required_ratio
        = (if (determine_wcag_compliance fontSizePx isBold language contrastRatio).is_large_text
           then (3.0 : ℝ) else 4.5)
  ∧ (determine_wcag_compliance fontSizePx isBold language contrastRatio).situation
        = (if (determine_wcag_compliance fontSizePx isBold language contrastRatio).is_large_text
           then "B" else "A")
  ∧ (determine_wcag_compliance fontSizePx isBold language contrastRatio).is_compliant
        = ((determine_wcag_compliance fontSizePx isBold language contrastRatio).required_ratio
            ≤ contrastRatio)
  ∧ (determine_wcag_compliance 24 true language contrastRatio).required_ratio = 3.0
  ∧ (determine_wcag_compliance 24 true language contrastRatio).is_large_text = true
  ∧ (determine_wcag_compliance 12 false language contrastRatio).required_ratio = 4.5
  ∧ (determine_wcag_compliance 12 false language contrastRatio).is_large_text = false := by
  refine ⟨rfl, ?_, ?_, ?_, ?_, rfl, ?_, ?_, ?_, ?_⟩
  · cases isBold with
    | false =>
      simp only [determine_wcag_compliance, ite_self]
      simp [decide_eq_true_eq]
      intro hp
      linarith
    | true =>
      simp only [determine_wcag_compliance, ite_self]
      simp [decide_eq_true_eq]
      intro hp
      linarith
  · simp only [determine_wcag_compliance, ite_self]
  · simp only [determine_wcag_compliance, ite_self]
  · simp only [determine_wcag_compliance, ite_self]
  · simp only [determine_wcag_compliance, ite_self]
    norm_num
  · simp only [determine_wcag_compliance, ite_self]
    norm_num
  · simp only [determine_wcag_compliance, ite_self]
    norm_num
  · simp only [determine_wcag_compliance, ite_self]
    norm_num

/-- C10: in the per-element loop, every element yields a result (no
per-element failure aborts the remaining elements); the final ratio is the
improved ratio exactly when the latter exists and otherwise the ratio of
the DOM-declared colors; the improved ratio is missing whenever the
screenshot is missing, the foreground color string fails the rgba regex,
or the background estimator fails; and the compliance verdict is computed
from the final ratio. -/
theorem checker_fallback_flow (kmeans : Nat → List RGB → RGB) (elems : List Element) :
    check_contrast_ratio kmeans elems = elems.map (processElement kmeans)
  ∧ (check_contrast_ratio kmeans elems).length = elems.length
  ∧ (∀ e ∈ elems, processElement kmeans e ∈ check_contrast_ratio kmeans elems)
  ∧ ∀ e : Element,
      ((improvedRatioOf kmeans e = none →
          (processElement kmeans e).final_contrast_ratio
            = calculate_contrast_ratio e.colorResolved e.bgResolved)
        ∧ (∀ v : ℝ, improvedRatioOf kmeans e = some v →
            (processElement kmeans e).final_contrast_ratio = v)
        ∧ (e.screenshot = none → improvedRatioOf kmeans e = none)
        ∧ (e.colorRGBA = none → improvedRatioOf kmeans e = none)
        ∧ (∀ img fgRgb, e.screenshot = some img → e.colorRGBA = some fgRgb →
            calculate_true_background_rgb kmeans img fgRgb = none →
            improvedRatioOf kmeans e = none)
        ∧ (processElement kmeans e).compliance
            = determine_wcag_compliance e.fontSize e.isBold e.language
                (processElement kmeans e).final_contrast_ratio) := by
  refine ⟨rfl, by simp [check_contrast_ratio], fun e he => List.mem_map_of_mem _ he,
    fun e => ⟨?_, ?_, ?_, ?_, ?_, rfl⟩⟩
  · intro hnone
    simp [processElement, hnone]
  · intro v hv
    simp [processElement, hv]
  · intro hs
    simp [improvedRatioOf, hs]
  · intro hc
    unfold improvedRatioOf
    cases hs : e.screenshot with
    | none => rfl
    | some img => rw [hc]
  · intro img fgRgb hs hc hb
    simp [improvedRatioOf, hs, hc, hb]

/-- C10 witness: a concrete element with a missing screenshot yields no
improved ratio and falls back to the DOM-declared contrast ratio, and the
batch over the one-element list still produces one result. -/
theorem checker_fallback_flow_witness :
    improvedRatioOf constKmeans elemNoShot = none
  ∧ (processElement constKmeans elemNoShot).final_contrast_ratio
      = calculate_contrast_ratio (0, 0, 0) (255, 255, 255)
  ∧ (check_contrast_ratio constKmeans [elemNoShot]).length = [elemNoShot].length := by
  have H := checker_fallback_flow constKmeans [elemNoShot]
  have h1 : improvedRatioOf constKmeans elemNoShot = none :=
    (H.2.2.2 elemNoShot).2.2.1 rfl
  exact ⟨h1, (H.2.2.2 elemNoShot).1 h1, H.2.1⟩

end WCAG
